import Mathlib

/-!
Verification of the frame-based RNNoise audio pipeline in
`app/src/main/cpp/native-lib.cpp`.

The core function `process_audio_with_rnnoise` is shallowly embedded below.
Modelling choices:

* 16-bit PCM samples are `ℤ` (the buffer type is `int16_t*`, so every stored
  value is in `[-32768, 32767]`; theorems that need this take it as a
  hypothesis on the input buffer).
* `float` arithmetic is modelled exactly over `ℚ`.
* The RNNoise engine (`DenoiseState` plus `rnnoise_process_frame`) is an
  external collaborator; it is embedded as an abstract state type `σ`
  together with a step function `step : σ → List ℚ → σ × List ℚ` mapping the
  current engine state and a 480-sample input frame to the next state and the
  denoised output frame.  The process-wide `rnnoise_state` global is an
  `Option σ` argument (`none` models the absent engine).
* The in-place mutation of the caller's buffer is explicit state passing over
  `List ℤ`; writing past the end of the list is a no-op of `List.set`, and all
  reads use `List.getD` with default `0`.
-/

namespace NativeLib

/-- RNNoise frame size: 480 samples (10 ms at 48 kHz); `RNNOISE_FRAME_SIZE`
in native-lib.cpp. -/
def RNNOISE_FRAME_SIZE : ℕ := 480

/-- Helper `s16_to_float` (native-lib.cpp lines 28-30): divide the int16
sample by 32768.0. -/
def s16_to_float (sample : ℤ) : ℚ := (sample : ℚ) / 32768

/-- Truncation toward zero: the semantics of `static_cast<int16_t>` applied
to an in-range `float` value. -/
def truncQ (x : ℚ) : ℤ := if 0 ≤ x then ⌊x⌋ else ⌈x⌉

/-- Helper `float_to_s16` (native-lib.cpp lines 32-38): scale by 32767.0,
saturate at 32767 above and -32768 below, otherwise cast (truncate toward
zero). -/
def float_to_s16 (sample : ℚ) : ℤ :=
  let scaled := sample * 32767
  if 32767 ≤ scaled then 32767
  else if scaled ≤ -32768 then -32768
  else truncQ scaled

/-- One sample of processing step 3 (native-lib.cpp lines 126-141): compute
the noise reduction, blend with `strength`, optionally gate, clamp to
`[-1, 1]`. -/
def blendSample (strength gateThreshold : ℚ) (useSpectralGating : Bool)
    (original denoised : ℚ) : ℚ :=
  let noise_reduction := original - denoised
  let v0 := original - noise_reduction * strength
  let v1 := if useSpectralGating = true ∧ |v0| < gateThreshold then 0 else v0
  let v2 := if 1 < v1 then 1 else v1
  if v2 < -1 then -1 else v2

/-- Processing step 1 (native-lib.cpp lines 110-120): deinterleave channel 0
into a float frame, reading `samples[(frameStart + i) * channels]` for
`i < n` and zero-padding the rest of the 480-sample frame. -/
def readFrame (samples : List ℤ) (channels frameStart n : ℕ) : List ℚ :=
  (List.range RNNOISE_FRAME_SIZE).map fun i =>
    if i < n then s16_to_float (samples.getD ((frameStart + i) * channels) 0) else 0

/-- Processing step 4 (native-lib.cpp lines 144-152): write the first `n`
blended samples back to channel 0, positions `(frameStart + i) * channels`
for `i < n`, in increasing order of `i`. -/
def writeFrame (samples : List ℤ) (channels frameStart : ℕ) (out : List ℚ) :
    ℕ → List ℤ
  | 0 => samples
  | n + 1 => (writeFrame samples channels frameStart out n).set
      ((frameStart + n) * channels) (float_to_s16 (out.getD n 0))

/-- Number of iterations of the frame loop (native-lib.cpp line 105) for a
given `samples_per_channel`: the loop runs `fs = 0, 480, 960, ...` while
`fs < spc`, i.e. the ceiling of `spc / 480`. -/
def numFrames (spc : ℕ) : ℕ :=
  (spc + RNNOISE_FRAME_SIZE - 1) / RNNOISE_FRAME_SIZE

/-- The successive values of `frame_start_sample` visited by the loop:
`count` frames starting at `fs`, each 480 apart. -/
def frameStartsAux (fs : ℕ) : ℕ → List ℕ
  | 0 => []
  | c + 1 => fs :: frameStartsAux (fs + RNNOISE_FRAME_SIZE) c

/-- All frame starts of the loop at native-lib.cpp line 105. -/
def frameStarts (spc : ℕ) : List ℕ := frameStartsAux 0 (numFrames spc)

/-- Body of the frame loop (native-lib.cpp lines 105-153), iterated over the
listed frame starts.  Each iteration computes
`samples_in_this_frame = min 480 (spc - fs)` (with the line-108 early break
when it is 0), reads the input frame, invokes the engine, blends all 480
positions, and writes the first `n` back. -/
def processFrames {σ : Type} (step : σ → List ℚ → σ × List ℚ)
    (strength gateThreshold : ℚ) (useSpectralGating : Bool)
    (channels spc : ℕ) : List ℕ → σ → List ℤ → σ × List ℤ
  | [], st, buf => (st, buf)
  | fs :: rest, st, buf =>
    let n := min RNNOISE_FRAME_SIZE (spc - fs)
    if n = 0 then (st, buf)
    else
      let float_in := readFrame buf channels fs n
      let st' := (step st float_in).1
      let float_out := (step st float_in).2
      let blended := (List.range RNNOISE_FRAME_SIZE).map fun i =>
        blendSample strength gateThreshold useSpectralGating
          (float_in.getD i 0) (float_out.getD i 0)
      processFrames step strength gateThreshold useSpectralGating channels spc
        rest st' (writeFrame buf channels fs blended n)

/-- Outcome of a processing call, distinguishing the error kinds of spec
section 7.  In the C++ code both failures return `false`; they are told apart
by which guard fired (and the corresponding log message). -/
inductive ProcessResult where
  | engineUnavailable
  | invalidChannelCount
  | success
  deriving DecidableEq, Repr

/-- Full observable outcome of a call: the returned result, the (in-place
mutated) sample buffer, and the process-wide engine state afterwards. -/
structure ProcessOutcome (σ : Type) where
  result : ProcessResult
  samples : List ℤ
  rnnoise_state : Option σ

/-- samples per channel as computed at native-lib.cpp line 102,
`numSamples / channels`: C `int` division of the two (positive, after the
guards) values, i.e. `Nat` division. -/
def spcOf (numSamples channels : ℤ) : ℕ := numSamples.toNat / channels.toNat

/-- Embedding of `process_audio_with_rnnoise` (native-lib.cpp lines 73-156).
Guards in source order: null engine state (lines 75-78), invalid channel
count (lines 79-82), empty chunk (lines 83-86).  The `sampleRate` check at
lines 90-93 only logs a warning and does not affect behaviour. -/
def process_audio_with_rnnoise {σ : Type} (rnnoise_state : Option σ)
    (step : σ → List ℚ → σ × List ℚ)
    (samples : List ℤ) (numSamples sampleRate channels : ℤ)
    (strength gateThreshold : ℚ) (useSpectralGating : Bool) :
    ProcessOutcome σ :=
  match rnnoise_state with
  | none => ⟨.engineUnavailable, samples, none⟩
  | some st =>
    if channels ≤ 0 then ⟨.invalidChannelCount, samples, some st⟩
    else if numSamples ≤ 0 then ⟨.success, samples, some st⟩
    else
      ⟨.success,
        (processFrames step strength gateThreshold useSpectralGating
          channels.toNat (spcOf numSamples channels)
          (frameStarts (spcOf numSamples channels)) st samples).2,
        some (processFrames step strength gateThreshold useSpectralGating
          channels.toNat (spcOf numSamples channels)
          (frameStarts (spcOf numSamples channels)) st samples).1⟩

/-- The engine outputs per frame, as produced during a call: frame `j` of the
trace is the output of `rnnoise_process_frame` on input frame `j`, with the
engine state threaded through.  Frames are read from `buf`; this coincides
with the frames the loop feeds to the engine because each frame reads only
buffer positions no earlier write touched. -/
def denFramesAux {σ : Type} (step : σ → List ℚ → σ × List ℚ)
    (channels spc : ℕ) (buf : List ℤ) (st : σ) (fs : ℕ) : ℕ → List (List ℚ)
  | 0 => []
  | c + 1 =>
    let n := min RNNOISE_FRAME_SIZE (spc - fs)
    let float_in := readFrame buf channels fs n
    (step st float_in).2 ::
      denFramesAux step channels spc buf (step st float_in).1
        (fs + RNNOISE_FRAME_SIZE) c

/-- The full denoised-frame trace of one call. -/
def denFrames {σ : Type} (step : σ → List ℚ → σ × List ℚ)
    (channels spc : ℕ) (buf : List ℤ) (st : σ) : List (List ℚ) :=
  denFramesAux step channels spc buf st 0 (numFrames spc)

/-- The raw engine output for per-channel sample position `k`: position
`k % 480` of denoised frame `k / 480`. -/
def denAt {σ : Type} (step : σ → List ℚ → σ × List ℚ)
    (channels spc : ℕ) (buf : List ℤ) (st : σ) (k : ℕ) : ℚ :=
  ((denFrames step channels spc buf st).getD (k / RNNOISE_FRAME_SIZE) []).getD
    (k % RNNOISE_FRAME_SIZE) 0

/-- Clamp to `[-1, 1]` (native-lib.cpp lines 139-140). -/
def clampQ (x : ℚ) : ℚ := if 1 < x then 1 else if x < -1 then -1 else x

/-- Sample Codec as worded in spec section 4.1: divide by 32768.0. -/
def toNormalizedFloat_spec (s : ℤ) : ℚ := (s : ℚ) / 32768

/-- Truncation toward zero as worded in the spec. -/
def truncTowardZero_spec (x : ℚ) : ℤ := if x < 0 then ⌈x⌉ else ⌊x⌋

/-- Sample Codec as worded in spec section 4.1: scale by 32767.0, map results
at or above 32767.0 to 32767, results at or below -32768.0 to -32768,
otherwise truncate toward zero. -/
def toInt16_spec (x : ℚ) : ℤ :=
  if 32767 ≤ x * 32767 then 32767
  else if x * 32767 ≤ -32768 then -32768
  else truncTowardZero_spec (x * 32767)

/-! Supporting lemmas: effect of `writeFrame` and `processFrames` on
individual buffer positions. -/

theorem length_writeFrame (buf : List ℤ) (ch fs : ℕ) (out : List ℚ) (n : ℕ) :
    (writeFrame buf ch fs out n).length = buf.length := by
  induction n with
  | zero => rfl
  | succ n ih => simp only [writeFrame, List.length_set, ih]

theorem writeFrame_getD_untouched (buf : List ℤ) (ch fs : ℕ) (out : List ℚ)
    (n : ℕ) (j : ℕ) (d : ℤ) (hj : ∀ i, i < n → j ≠ (fs + i) * ch) :
    (writeFrame buf ch fs out n).getD j d = buf.getD j d := by
  induction n with
  | zero => rfl
  | succ n ih =>
    have hne : (fs + n) * ch ≠ j := fun h => hj n (Nat.lt_succ_self n) h.symm
    simp only [writeFrame]
    rw [List.getD_eq_getElem?_getD, List.getElem?_set_ne hne,
      ← List.getD_eq_getElem?_getD]
    exact ih fun i hi => hj i (Nat.lt_succ_of_lt hi)

theorem writeFrame_getD_written (buf : List ℤ) (ch fs : ℕ) (out : List ℚ)
    (hch : 0 < ch) (n i : ℕ) (hi : i < n) (hlen : (fs + i) * ch < buf.length) :
    (writeFrame buf ch fs out n).getD ((fs + i) * ch) 0 =
      float_to_s16 (out.getD i 0) := by
  induction n with
  | zero => omega
  | succ n ih =>
    rcases Nat.lt_succ_iff_lt_or_eq.mp hi with h | h
    · have hne : (fs + n) * ch ≠ (fs + i) * ch := by
        intro he
        have := Nat.eq_of_mul_eq_mul_right hch he
        omega
      simp only [writeFrame]
      rw [List.getD_eq_getElem?_getD, List.getElem?_set_ne hne,
        ← List.getD_eq_getElem?_getD]
      exact ih h
    · subst h
      simp only [writeFrame]
      rw [List.getD_eq_getElem?_getD,
        List.getElem?_set_eq_of_lt _ (by rw [length_writeFrame]; exact hlen)]
      rfl

theorem length_processFrames {σ : Type} (step : σ → List ℚ → σ × List ℚ)
    (s g : ℚ) (ug : Bool) (ch spc : ℕ) (starts : List ℕ) (st : σ)
    (buf : List ℤ) :
    ((processFrames step s g ug ch spc starts st buf).2).length = buf.length := by
  induction starts generalizing st buf with
  | nil => rfl
  | cons fs rest ih =>
    simp only [processFrames]
    split
    · rfl
    · rw [ih, length_writeFrame]

theorem processFrames_getD_untouched {σ : Type}
    (step : σ → List ℚ → σ × List ℚ) (s g : ℚ) (ug : Bool) (ch spc : ℕ)
    (j : ℕ) (d : ℤ) (c : ℕ) :
    ∀ (fs : ℕ) (st : σ) (buf : List ℤ),
      (∀ m, fs ≤ m → m < spc → j ≠ m * ch) →
      ((processFrames step s g ug ch spc (frameStartsAux fs c) st buf).2).getD j d =
        buf.getD j d := by
  induction c with
  | zero => intro fs st buf _; rfl
  | succ c ih =>
    intro fs st buf h
    simp only [frameStartsAux, processFrames]
    split
    · rfl
    · rw [ih (fs + RNNOISE_FRAME_SIZE) _ _ fun m hm1 hm2 =>
        h m (by omega) hm2]
      apply writeFrame_getD_untouched
      intro i hi
      have hi2 : i < spc - fs := lt_of_lt_of_le hi (min_le_right _ _)
      exact h (fs + i) (Nat.le_add_right fs i) (by omega)

theorem readFrame_writeFrame (buf : List ℤ) (ch fs n fs2 n2 : ℕ)
    (out : List ℚ) (hch : 0 < ch) (hle : fs + n ≤ fs2) :
    readFrame (writeFrame buf ch fs out n) ch fs2 n2 =
      readFrame buf ch fs2 n2 := by
  unfold readFrame
  apply List.map_congr_left
  intro i _
  by_cases h : i < n2
  · rw [if_pos h, if_pos h]
    congr 1
    apply writeFrame_getD_untouched
    intro i2 hi2 he
    have := Nat.eq_of_mul_eq_mul_right hch he
    omega
  · rw [if_neg h, if_neg h]

theorem denFramesAux_writeFrame {σ : Type} (step : σ → List ℚ → σ × List ℚ)
    (ch spc : ℕ) (buf : List ℤ) (out : List ℚ) (fs n : ℕ) (hch : 0 < ch)
    (c : ℕ) :
    ∀ (fs2 : ℕ) (st : σ), fs + n ≤ fs2 →
      denFramesAux step ch spc (writeFrame buf ch fs out n) st fs2 c =
        denFramesAux step ch spc buf st fs2 c := by
  induction c with
  | zero => intro fs2 st _; rfl
  | succ c ih =>
    intro fs2 st hle
    simp only [denFramesAux,
      readFrame_writeFrame buf ch fs n fs2 (min RNNOISE_FRAME_SIZE (spc - fs2))
        out hch hle]
    rw [ih (fs2 + RNNOISE_FRAME_SIZE) _ (by omega)]

theorem getD_map_range (f : ℕ → ℚ) (m i : ℕ) (d : ℚ) (h : i < m) :
    ((List.range m).map f).getD i d = f i := by
  rw [List.getD_eq_getElem _ d (by simpa using h)]
  simp

theorem le_numFrames_mul (spc : ℕ) : spc ≤ numFrames spc * 480 := by
  have h480 : RNNOISE_FRAME_SIZE = 480 := rfl
  unfold numFrames
  rw [h480]
  omega

theorem readFrame_getD (buf : List ℤ) (ch fs n i : ℕ)
    (h : i < RNNOISE_FRAME_SIZE) :
    (readFrame buf ch fs n).getD i 0 =
      if i < n then s16_to_float (buf.getD ((fs + i) * ch) 0) else 0 := by
  unfold readFrame
  rw [getD_map_range _ _ _ _ h]

theorem processFrames_getD_written {σ : Type} (step : σ → List ℚ → σ × List ℚ)
    (s g : ℚ) (ug : Bool) (ch spc : ℕ) (hch : 0 < ch) (c : ℕ) :
    ∀ (fs k : ℕ) (st : σ) (buf : List ℤ), fs ≤ k → k < spc →
      k < fs + c * 480 → k * ch < buf.length →
      ((processFrames step s g ug ch spc (frameStartsAux fs c) st buf).2).getD
          (k * ch) 0 =
        float_to_s16 (blendSample s g ug
          (s16_to_float (buf.getD (k * ch) 0))
          (((denFramesAux step ch spc buf st fs c).getD
              ((k - fs) / RNNOISE_FRAME_SIZE) []).getD
            ((k - fs) % RNNOISE_FRAME_SIZE) 0)) := by
  have h480 : RNNOISE_FRAME_SIZE = 480 := rfl
  induction c with
  | zero =>
    intro fs k st buf h1 _ h3 _
    omega
  | succ c ih =>
    intro fs k st buf hfk hks hkc hkl
    have hfs : fs < spc := lt_of_le_of_lt hfk hks
    have hn0 : ¬ min RNNOISE_FRAME_SIZE (spc - fs) = 0 := by omega
    simp only [frameStartsAux, processFrames, denFramesAux]
    set N := min RNNOISE_FRAME_SIZE (spc - fs) with hN
    set FI := readFrame buf ch fs N with hFI
    set BL := (List.range RNNOISE_FRAME_SIZE).map
      (fun i => blendSample s g ug (FI.getD i 0) ((step st FI).2.getD i 0))
      with hBL
    set ST2 := (step st FI).1 with hST2
    set BUF2 := writeFrame buf ch fs BL N with hBUF2
    rw [if_neg hn0]
    by_cases hk : k < fs + RNNOISE_FRAME_SIZE
    · have hkn : k - fs < N := by omega
      have hyp : ∀ m, fs + RNNOISE_FRAME_SIZE ≤ m → m < spc →
          k * ch ≠ m * ch := by
        intro m hm1 hm2 he
        have := Nat.eq_of_mul_eq_mul_right hch he
        omega
      rw [processFrames_getD_untouched step s g ug ch spc (k * ch) 0 c
        (fs + RNNOISE_FRAME_SIZE) ST2 BUF2 hyp]
      have hkeq : k * ch = (fs + (k - fs)) * ch := by congr 1; omega
      rw [hkeq]
      have hlen2 : (fs + (k - fs)) * ch < buf.length := hkeq ▸ hkl
      rw [hBUF2, writeFrame_getD_written buf ch fs BL hch N (k - fs) hkn hlen2]
      congr 1
      rw [hBL, getD_map_range _ _ _ _ (by omega),
        Nat.div_eq_of_lt (by omega : k - fs < RNNOISE_FRAME_SIZE),
        Nat.mod_eq_of_lt (by omega : k - fs < RNNOISE_FRAME_SIZE),
        List.getD_cons_zero, hFI, readFrame_getD buf ch fs N (k - fs) (by omega),
        if_pos hkn]
    · have hbuf2len : k * ch < BUF2.length := by
        rw [hBUF2, length_writeFrame]; exact hkl
      rw [ih (fs + RNNOISE_FRAME_SIZE) k ST2 BUF2 (by omega) hks (by omega)
        hbuf2len]
      have hj1 : ∀ i, i < N → k * ch ≠ (fs + i) * ch := by
        intro i hi he
        have := Nat.eq_of_mul_eq_mul_right hch he
        omega
      rw [hBUF2, writeFrame_getD_untouched buf ch fs BL N (k * ch) 0 hj1,
        denFramesAux_writeFrame step ch spc buf BL fs N hch c
          (fs + RNNOISE_FRAME_SIZE) ST2 (by omega)]
      have hsub : k - fs = k - (fs + RNNOISE_FRAME_SIZE) + RNNOISE_FRAME_SIZE := by
        omega
      rw [hsub, Nat.add_div_right _ (by omega), Nat.add_mod_right,
        List.getD_cons_succ]

/-! Per-sample lemmas about blending, gating, clamping and requantization. -/

theorem clamp_chain (x : ℚ) :
    (if (if 1 < x then 1 else x) < -1 then -1 else if 1 < x then 1 else x) =
      clampQ x := by
  unfold clampQ
  by_cases h1 : 1 < x
  · simp only [if_pos h1]
    rw [if_neg (by norm_num)]
  · simp only [if_neg h1]

theorem blendSample_strength_one (g orig den : ℚ) :
    blendSample 1 g false orig den = clampQ den := by
  simp only [blendSample, mul_one, sub_sub_cancel]
  have hg : ¬(false = true ∧ |den| < g) := by simp
  rw [if_neg hg]
  exact clamp_chain den

theorem blendSample_strength_zero (g orig den : ℚ) :
    blendSample 0 g false orig den = clampQ orig := by
  simp only [blendSample, mul_zero, sub_zero]
  have hg : ¬(false = true ∧ |orig| < g) := by simp
  rw [if_neg hg]
  exact clamp_chain orig

theorem blendSample_gated (s g orig den : ℚ)
    (h : |orig - (orig - den) * s| < g) :
    blendSample s g true orig den = 0 := by
  simp only [blendSample]
  have hg : True ∧ |orig - (orig - den) * s| < g := ⟨trivial, h⟩
  rw [if_pos hg]
  norm_num

theorem clampQ_eq_self (x : ℚ) (h1 : -1 ≤ x) (h2 : x ≤ 1) : clampQ x = x := by
  unfold clampQ
  rw [if_neg (not_lt.mpr h2), if_neg (not_lt.mpr h1)]

theorem float_to_s16_zero : float_to_s16 0 = 0 := by
  norm_num [float_to_s16, truncQ]

theorem float_to_s16_bounds (x : ℚ) :
    -32768 ≤ float_to_s16 x ∧ float_to_s16 x ≤ 32767 := by
  simp only [float_to_s16]
  split
  · exact ⟨by norm_num, le_refl _⟩
  split
  · exact ⟨le_refl _, by norm_num⟩
  next h1 h2 =>
    have h1' : x * 32767 < 32767 := lt_of_not_le h1
    have h2' : (-32768 : ℚ) < x * 32767 := lt_of_not_le h2
    unfold truncQ
    split
    · next h3 =>
      constructor
      · have : (0 : ℤ) ≤ ⌊x * 32767⌋ := Int.floor_nonneg.mpr h3
        omega
      · have : ⌊x * 32767⌋ < 32767 := Int.floor_lt.mpr (by exact_mod_cast h1')
        omega
    · next h3 =>
      have h3' : x * 32767 < 0 := lt_of_not_le h3
      constructor
      · have : (-32768 : ℤ) < ⌈x * 32767⌉ :=
          Int.lt_ceil.mpr (by exact_mod_cast h2')
        omega
      · have : ⌈x * 32767⌉ ≤ 0 :=
          Int.ceil_le.mpr (by exact_mod_cast le_of_lt h3')
        omega

theorem float_to_s16_s16_to_float (v : ℤ) (h1 : -32768 ≤ v) (h2 : v ≤ 32767) :
    v - 1 ≤ float_to_s16 (s16_to_float v) ∧
      float_to_s16 (s16_to_float v) ≤ v + 1 := by
  have hq1 : (-32768 : ℚ) ≤ (v : ℚ) := by exact_mod_cast h1
  have hq2 : ((v : ℚ)) ≤ 32767 := by exact_mod_cast h2
  have hx : ((v : ℚ)) / 32768 * 32767 = (v : ℚ) * 32767 / 32768 := by ring
  simp only [float_to_s16, s16_to_float]
  rw [hx]
  have hub : ((v : ℚ)) * 32767 / 32768 < 32767 := by
    rw [div_lt_iff₀ (by norm_num)]
    nlinarith
  have hlb : (-32768 : ℚ) < (v : ℚ) * 32767 / 32768 := by
    rw [lt_div_iff₀ (by norm_num)]
    nlinarith
  rw [if_neg (not_le.mpr hub), if_neg (not_le.mpr hlb)]
  unfold truncQ
  split
  · next h3 =>
    have hv0 : (0 : ℚ) ≤ (v : ℚ) := by
      by_contra hneg
      push_neg at hneg
      have : ((v : ℚ)) * 32767 / 32768 < 0 :=
        div_neg_of_neg_of_pos (by nlinarith) (by norm_num)
      linarith
    constructor
    · rw [Int.le_floor]
      push_cast
      rw [le_div_iff₀ (by norm_num)]
      nlinarith
    · have hle : ((v : ℚ)) * 32767 / 32768 ≤ ((v : ℚ)) := by
        rw [div_le_iff₀ (by norm_num)]
        nlinarith
      have hfl : ⌊(v : ℚ) * 32767 / 32768⌋ ≤ v := by
        have := Int.floor_le_floor hle
        rwa [Int.floor_intCast] at this
      omega
  · next h3 =>
    have h3' : (v : ℚ) * 32767 / 32768 < 0 := lt_of_not_le h3
    have hvneg : ((v : ℚ)) ≤ 0 := by
      by_contra hpos
      push_neg at hpos
      have : (0 : ℚ) < (v : ℚ) * 32767 / 32768 :=
        div_pos (by nlinarith) (by norm_num)
      linarith
    constructor
    · have hle : ((v : ℚ)) ≤ (v : ℚ) * 32767 / 32768 := by
        rw [le_div_iff₀ (by norm_num)]
        nlinarith
      have := le_trans hle (Int.le_ceil _)
      have hvc : v ≤ ⌈(v : ℚ) * 32767 / 32768⌉ := by exact_mod_cast this
      omega
    · have hc : ⌈(v : ℚ) * 32767 / 32768⌉ ≤ v + 1 := by
        rw [Int.ceil_le]
        push_cast
        rw [div_le_iff₀ (by norm_num)]
        nlinarith
      omega

/-! Claims C6 through C10: the Sample Codec and the guard and no-op
behaviour of the pipeline entry point. -/

/-- Cast truncation toward zero agrees with the wording of the spec. -/
theorem truncQ_eq_truncTowardZero (x : ℚ) : truncQ x = truncTowardZero_spec x := by
  unfold truncQ truncTowardZero_spec
  rcases lt_or_le x 0 with h | h
  · rw [if_neg (not_le.mpr h), if_pos h]
  · rw [if_pos h, if_neg (not_lt.mpr h)]

/-- C6: the Sample Codec implements exactly the asymmetric conversion the
spec describes: `s16_to_float` divides by 32768.0, and `float_to_s16` scales
by 32767.0, saturates results at or above 32767.0 to 32767 and results at or
below -32768.0 to -32768, and otherwise truncates toward zero. -/
theorem sampleCodec_meets_spec :
    (∀ s : ℤ, s16_to_float s = toNormalizedFloat_spec s) ∧
    (∀ x : ℚ, float_to_s16 x = toInt16_spec x) := by
  refine ⟨fun s => rfl, fun x => ?_⟩
  simp only [float_to_s16, toInt16_spec, truncQ_eq_truncTowardZero]

/-- C8: a call made while the engine state is absent fails with
EngineUnavailable, and the buffer and the engine state are unmodified. -/
theorem process_engineUnavailable {σ : Type}
    (step : σ → List ℚ → σ × List ℚ) (samples : List ℤ)
    (numSamples sampleRate channels : ℤ) (strength gateThreshold : ℚ)
    (useSpectralGating : Bool) :
    process_audio_with_rnnoise none step samples numSamples sampleRate
      channels strength gateThreshold useSpectralGating =
      ⟨.engineUnavailable, samples, none⟩ := rfl

/-- C7 (counterexample): a call with `channels = 0` made while the engine is
absent does NOT fail with InvalidChannelCount — the null-engine guard fires
first and the call fails with EngineUnavailable instead. -/
theorem channelGuard_after_engineGuard :
    ((0 : ℤ) ≤ 0) ∧
    (process_audio_with_rnnoise (σ := Unit) none (fun st f => (st, f)) [7] 2
      48000 0 1 0 false).result ≠ ProcessResult.invalidChannelCount :=
  ⟨le_refl 0, by decide⟩

/-- C7 (amended): a call with `channels ≤ 0` made while the engine state is
present fails with InvalidChannelCount, and the buffer and the engine state
are unmodified. -/
theorem process_invalidChannelCount {σ : Type} (st : σ)
    (step : σ → List ℚ → σ × List ℚ) (samples : List ℤ)
    (numSamples sampleRate channels : ℤ) (strength gateThreshold : ℚ)
    (useSpectralGating : Bool) (hch : channels ≤ 0) :
    process_audio_with_rnnoise (some st) step samples numSamples sampleRate
      channels strength gateThreshold useSpectralGating =
      ⟨.invalidChannelCount, samples, some st⟩ := by
  simp only [process_audio_with_rnnoise, if_pos hch]

/-- Witness for the amended C7 at a concrete input. -/
theorem process_invalidChannelCount_witness :
    ((-3 : ℤ) ≤ 0) ∧
    process_audio_with_rnnoise (some ()) (fun st f => (st, f)) [7, 8] 2 48000
      (-3) 1 0 true = ⟨.invalidChannelCount, [7, 8], some ()⟩ :=
  ⟨by decide,
    process_invalidChannelCount () (fun st f => (st, f)) [7, 8] 2 48000 (-3)
      1 0 true (by decide)⟩

/-- C9: a call with `numSamples ≤ 0` (engine present, valid channel count)
succeeds trivially with no processing: the buffer and engine state are
unchanged. -/
theorem process_emptyChunk {σ : Type} (st : σ)
    (step : σ → List ℚ → σ × List ℚ) (samples : List ℤ)
    (numSamples sampleRate channels : ℤ) (strength gateThreshold : ℚ)
    (useSpectralGating : Bool) (hch : 0 < channels) (hn : numSamples ≤ 0) :
    process_audio_with_rnnoise (some st) step samples numSamples sampleRate
      channels strength gateThreshold useSpectralGating =
      ⟨.success, samples, some st⟩ := by
  simp only [process_audio_with_rnnoise, if_neg (not_le.mpr hch), if_pos hn]

/-- Witness for C9 at a concrete input. -/
theorem process_emptyChunk_witness :
    ((0 : ℤ) < 2 ∧ (0 : ℤ) ≤ 0) ∧
    process_audio_with_rnnoise (some ()) (fun st f => (st, f)) [5, 6] 0 48000
      2 1 0 true = ⟨.success, [5, 6], some ()⟩ :=
  ⟨⟨by decide, by decide⟩,
    process_emptyChunk () (fun st f => (st, f)) [5, 6] 0 48000 2 1 0 true
      (by decide) (by decide)⟩

/-- C10: a call with `0 < numSamples < channels` (so
`samples_per_channel = numSamples / channels = 0`) succeeds, performs zero
frame iterations, never invokes the engine (the engine state is returned
unchanged for every possible step function), and leaves the buffer
unchanged. -/
theorem process_subChannelChunk {σ : Type} (st : σ)
    (step : σ → List ℚ → σ × List ℚ) (samples : List ℤ)
    (numSamples sampleRate channels : ℤ) (strength gateThreshold : ℚ)
    (useSpectralGating : Bool) (h0 : 0 < numSamples)
    (hlt : numSamples < channels) :
    process_audio_with_rnnoise (some st) step samples numSamples sampleRate
      channels strength gateThreshold useSpectralGating =
      ⟨.success, samples, some st⟩ := by
  have hch : 0 < channels := lt_trans h0 hlt
  have hspc : spcOf numSamples channels = 0 := Nat.div_eq_of_lt (by omega)
  simp only [process_audio_with_rnnoise, if_neg (not_le.mpr hch),
    if_neg (not_le.mpr h0), hspc]
  rfl

/-- Witness for C10 at a concrete input: the counting engine records zero
invocations. -/
theorem process_subChannelChunk_witness :
    ((0 : ℤ) < 1 ∧ (1 : ℤ) < 2) ∧
    process_audio_with_rnnoise (some 0) (fun c (f : List ℚ) => (c + 1, f))
      [3, 4] 1 48000 2 (1/2) 0 false = ⟨.success, [3, 4], some 0⟩ :=
  ⟨⟨by decide, by decide⟩,
    process_subChannelChunk 0 (fun c (f : List ℚ) => (c + 1, f)) [3, 4] 1
      48000 2 (1/2) 0 false (by decide) (by decide)⟩

/-- Workhorse corollary at the entry-point level: for a processed call, the
buffer value written at interleaved position `k * channels` (per-channel
position `k < samples_per_channel`) is the blended, gated, clamped and
requantized combination of the original sample there and the engine's raw
output for that position. -/
theorem process_getD_written {σ : Type} (st : σ)
    (step : σ → List ℚ → σ × List ℚ) (samples : List ℤ)
    (numSamples sampleRate channels : ℤ) (s g : ℚ) (ug : Bool) (k : ℕ)
    (hch : 0 < channels) (hn : 0 < numSamples)
    (hk : k < spcOf numSamples channels)
    (hkl : k * channels.toNat < samples.length) :
    ((process_audio_with_rnnoise (some st) step samples numSamples sampleRate
        channels s g ug).samples).getD (k * channels.toNat) 0 =
      float_to_s16 (blendSample s g ug
        (s16_to_float (samples.getD (k * channels.toNat) 0))
        (denAt step channels.toNat (spcOf numSamples channels) samples st k)) := by
  have hchn : 0 < channels.toNat := by omega
  simp only [process_audio_with_rnnoise, if_neg (not_le.mpr hch),
    if_neg (not_le.mpr hn)]
  unfold frameStarts
  rw [processFrames_getD_written step s g ug channels.toNat
    (spcOf numSamples channels) hchn (numFrames (spcOf numSamples channels)) 0
    k st samples (Nat.zero_le k) hk
    (by have := le_numFrames_mul (spcOf numSamples channels); omega) hkl,
    Nat.sub_zero]
  rfl

/-- C1: for every successful call (engine present, positive channel count),
the only buffer positions ever modified are the channel-0 interleaved
positions `k * channels` for per-channel positions
`k < samplesPerChannel = numSamples / channels`; every other position keeps
its input value bit-identically. -/
theorem process_frame_effect {σ : Type} (st : σ)
    (step : σ → List ℚ → σ × List ℚ) (samples : List ℤ)
    (numSamples sampleRate channels : ℤ) (s g : ℚ) (ug : Bool)
    (hch : 0 < channels) :
    (process_audio_with_rnnoise (some st) step samples numSamples sampleRate
        channels s g ug).result = ProcessResult.success ∧
    ∀ j : ℕ, (∀ k, k < spcOf numSamples channels → j ≠ k * channels.toNat) →
      ((process_audio_with_rnnoise (some st) step samples numSamples
          sampleRate channels s g ug).samples).getD j 0 = samples.getD j 0 := by
  by_cases hn : numSamples ≤ 0
  · constructor
    · simp only [process_audio_with_rnnoise, if_neg (not_le.mpr hch),
        if_pos hn]
    · intro j _
      simp only [process_audio_with_rnnoise, if_neg (not_le.mpr hch),
        if_pos hn]
  · push_neg at hn
    constructor
    · simp only [process_audio_with_rnnoise, if_neg (not_le.mpr hch),
        if_neg (not_le.mpr hn)]
    · intro j hj
      simp only [process_audio_with_rnnoise, if_neg (not_le.mpr hch),
        if_neg (not_le.mpr hn)]
      unfold frameStarts
      exact processFrames_getD_untouched step s g ug channels.toNat
        (spcOf numSamples channels) j 0 (numFrames (spcOf numSamples channels))
        0 st samples fun m _ hm2 => hj m hm2

/-- Witness for C1: a stereo call succeeds and leaves the odd (channel-1)
position 1 unchanged. -/
theorem process_frame_effect_witness :
    ((0 : ℤ) < 2) ∧
    (process_audio_with_rnnoise (some ()) (fun st f => (st, f))
        [10, 20, 30, 40] 4 48000 2 1 0 false).result =
      ProcessResult.success ∧
    ((process_audio_with_rnnoise (some ()) (fun st f => (st, f))
        [10, 20, 30, 40] 4 48000 2 1 0 false).samples).getD 1 0 =
      ([10, 20, 30, 40] : List ℤ).getD 1 0 :=
  ⟨by decide,
    (process_frame_effect () (fun st f => (st, f)) [10, 20, 30, 40] 4 48000 2
      1 0 false (by decide)).1,
    (process_frame_effect () (fun st f => (st, f)) [10, 20, 30, 40] 4 48000 2
      1 0 false (by decide)).2 1 (by decide)⟩

/-- C2: for a mono buffer of 960 samples (two full frames) at 48000 Hz with
strength 1 and gating disabled, every output sample is exactly the raw
denoised engine output for that position, clamped to [-1, 1] and requantized
by the Sample Codec. -/
theorem process_mono960_full_strength {σ : Type} (st : σ)
    (step : σ → List ℚ → σ × List ℚ) (samples : List ℤ) (g : ℚ)
    (hlen : samples.length = 960) (j : ℕ) (hj : j < 960) :
    ((process_audio_with_rnnoise (some st) step samples 960 48000 1 1 g
        false).samples).getD j 0 =
      float_to_s16 (clampQ (denAt step 1 960 samples st j)) := by
  have hone : (1 : ℤ).toNat = 1 := rfl
  have hspc : spcOf 960 1 = 960 := rfl
  have h1 := process_getD_written st step samples 960 48000 1 1 g false j
    (by norm_num) (by norm_num) (by rw [hspc]; exact hj)
    (by rw [hone, mul_one, hlen]; exact hj)
  rw [hone, mul_one, hspc, blendSample_strength_one] at h1
  exact h1

/-- Witness for C2 at a concrete input. -/
theorem process_mono960_full_strength_witness :
    ((List.replicate 960 (0 : ℤ)).length = 960 ∧ (0 : ℕ) < 960) ∧
    ((process_audio_with_rnnoise (some ()) (fun st f => (st, f))
        (List.replicate 960 (0 : ℤ)) 960 48000 1 1 0 false).samples).getD 0
        0 =
      float_to_s16 (clampQ (denAt (fun st f => (st, f)) 1 960
        (List.replicate 960 (0 : ℤ)) () 0)) :=
  ⟨⟨by rw [List.length_replicate], by norm_num⟩,
    process_mono960_full_strength () (fun st f => (st, f))
      (List.replicate 960 (0 : ℤ)) 0 (by rw [List.length_replicate]) 0
      (by norm_num)⟩

/-- C3: with strength 0 and gating disabled, every buffer position of the
output differs from its input int16 value by at most one quantization step
(the normalize, blend, clamp, requantize round trip is a near-identity),
regardless of the engine's output. -/
theorem process_strength_zero_near_identity {σ : Type} (st : σ)
    (step : σ → List ℚ → σ × List ℚ) (samples : List ℤ)
    (numSamples sampleRate channels : ℤ) (g : ℚ) (hch : 0 < channels)
    (hrange : ∀ x ∈ samples, -32768 ≤ x ∧ x ≤ 32767) :
    ∀ j : ℕ,
      |((process_audio_with_rnnoise (some st) step samples numSamples
          sampleRate channels 0 g false).samples).getD j 0 -
        samples.getD j 0| ≤ 1 := by
  intro j
  by_cases hn : numSamples ≤ 0
  · simp only [process_audio_with_rnnoise, if_neg (not_le.mpr hch), if_pos hn]
    simp
  · push_neg at hn
    by_cases hw : ∃ k, k < spcOf numSamples channels ∧ j = k * channels.toNat
    · obtain ⟨k, hk, rfl⟩ := hw
      by_cases hlen : k * channels.toNat < samples.length
      · rw [process_getD_written st step samples numSamples sampleRate
          channels 0 g false k hch hn hk hlen, blendSample_strength_zero]
        have hmem : samples.getD (k * channels.toNat) 0 ∈ samples := by
          rw [List.getD_eq_getElem _ _ hlen]
          exact List.getElem_mem hlen
        obtain ⟨ha, hb⟩ := hrange _ hmem
        have hselfa : (-1 : ℚ) ≤ s16_to_float (samples.getD (k * channels.toNat) 0) := by
          unfold s16_to_float
          rw [le_div_iff₀ (by norm_num)]
          have : (-32768 : ℚ) ≤ ((samples.getD (k * channels.toNat) 0 : ℤ) : ℚ) := by
            exact_mod_cast ha
          linarith
        have hselfb : s16_to_float (samples.getD (k * channels.toNat) 0) ≤ 1 := by
          unfold s16_to_float
          rw [div_le_iff₀ (by norm_num)]
          have : ((samples.getD (k * channels.toNat) 0 : ℤ) : ℚ) ≤ 32767 := by
            exact_mod_cast hb
          linarith
        rw [clampQ_eq_self _ hselfa hselfb]
        obtain ⟨hc, hd⟩ :=
          float_to_s16_s16_to_float (samples.getD (k * channels.toNat) 0) ha hb
        rw [abs_le]
        omega
      · push_neg at hlen
        have houtlen : ((process_audio_with_rnnoise (some st) step samples
            numSamples sampleRate channels 0 g false).samples).length =
            samples.length := by
          simp only [process_audio_with_rnnoise, if_neg (not_le.mpr hch),
            if_neg (not_le.mpr hn)]
          exact length_processFrames _ _ _ _ _ _ _ _ _
        rw [List.getD_eq_default _ _ (houtlen.le.trans hlen),
          List.getD_eq_default _ _ hlen]
        simp
    · push_neg at hw
      simp only [process_audio_with_rnnoise, if_neg (not_le.mpr hch),
        if_neg (not_le.mpr hn)]
      unfold frameStarts
      rw [processFrames_getD_untouched step 0 g false channels.toNat
        (spcOf numSamples channels) j 0 (numFrames (spcOf numSamples channels))
        0 st samples fun m _ hm2 => hw m hm2]
      simp

/-- Witness for C3 at a concrete input. -/
theorem process_strength_zero_near_identity_witness :
    ((0 : ℤ) < 1 ∧
      ∀ x ∈ ([100, -100] : List ℤ), -32768 ≤ x ∧ x ≤ 32767) ∧
    |((process_audio_with_rnnoise (some ()) (fun st f => (st, f))
        [100, -100] 2 48000 1 0 (1/2) false).samples).getD 0 0 -
      ([100, -100] : List ℤ).getD 0 0| ≤ 1 :=
  ⟨⟨by decide, by decide⟩,
    process_strength_zero_near_identity () (fun st f => (st, f)) [100, -100]
      2 48000 1 (1/2) (by decide) (by decide) 0⟩

/-- C4: with gating enabled, any written position whose blended value
(before clamping) has magnitude strictly below the gate threshold is written
back as exactly 0. -/
theorem process_gating_zeroes {σ : Type} (st : σ)
    (step : σ → List ℚ → σ × List ℚ) (samples : List ℤ)
    (numSamples sampleRate channels : ℤ) (s g : ℚ) (k : ℕ)
    (hch : 0 < channels) (hn : 0 < numSamples)
    (hk : k < spcOf numSamples channels)
    (hkl : k * channels.toNat < samples.length)
    (hgate : |s16_to_float (samples.getD (k * channels.toNat) 0) -
        (s16_to_float (samples.getD (k * channels.toNat) 0) -
          denAt step channels.toNat (spcOf numSamples channels) samples st k) *
          s| < g) :
    ((process_audio_with_rnnoise (some st) step samples numSamples sampleRate
        channels s g true).samples).getD (k * channels.toNat) 0 = 0 := by
  rw [process_getD_written st step samples numSamples sampleRate channels s g
    true k hch hn hk hkl, blendSample_gated _ _ _ _ hgate, float_to_s16_zero]

/-- Witness for C4 at a concrete input. -/
theorem process_gating_zeroes_witness :
    ((0 : ℤ) < 1 ∧ (0 : ℤ) < 1 ∧ 0 < spcOf 1 1 ∧
      0 * (1 : ℤ).toNat < ([0] : List ℤ).length ∧
      |s16_to_float (([0] : List ℤ).getD (0 * (1 : ℤ).toNat) 0) -
        (s16_to_float (([0] : List ℤ).getD (0 * (1 : ℤ).toNat) 0) -
          denAt (fun (st : Unit) (f : List ℚ) => (st, f)) (1 : ℤ).toNat
            (spcOf 1 1) [0] () 0) * 0| < 1) ∧
    ((process_audio_with_rnnoise (some ()) (fun st f => (st, f)) [0] 1 48000
        1 0 1 true).samples).getD (0 * (1 : ℤ).toNat) 0 = 0 :=
  ⟨⟨by decide, by decide, by decide, by decide,
      by rw [mul_zero, sub_zero]; simp [s16_to_float]⟩,
    process_gating_zeroes () (fun st f => (st, f)) [0] 1 48000 1 0 1 0
      (by decide) (by decide) (by decide) (by decide)
      (by rw [mul_zero, sub_zero]; simp [s16_to_float])⟩

/-- C5: every requantized sample written back to the buffer lies within
[-32768, 32767], no matter how large the engine's output values are: the
saturating conversion makes the int16 write well-defined. -/
theorem process_output_in_range {σ : Type} (st : σ)
    (step : σ → List ℚ → σ × List ℚ) (samples : List ℤ)
    (numSamples sampleRate channels : ℤ) (s g : ℚ) (ug : Bool) (k : ℕ)
    (hch : 0 < channels) (hn : 0 < numSamples)
    (hk : k < spcOf numSamples channels)
    (hkl : k * channels.toNat < samples.length) :
    -32768 ≤ ((process_audio_with_rnnoise (some st) step samples numSamples
        sampleRate channels s g ug).samples).getD (k * channels.toNat) 0 ∧
      ((process_audio_with_rnnoise (some st) step samples numSamples
        sampleRate channels s g ug).samples).getD (k * channels.toNat) 0 ≤
        32767 := by
  rw [process_getD_written st step samples numSamples sampleRate channels s g
    ug k hch hn hk hkl]
  exact float_to_s16_bounds _

/-- Witness for C5 at a concrete input with an engine whose output is far
outside [-1, 1]. -/
theorem process_output_in_range_witness :
    ((0 : ℤ) < 1 ∧ (0 : ℤ) < 1 ∧ 0 < spcOf 1 1 ∧
      0 * (1 : ℤ).toNat < ([7] : List ℤ).length) ∧
    (-32768 ≤ ((process_audio_with_rnnoise (some ())
        (fun (st : Unit) (f : List ℚ) =>
          (st, List.replicate RNNOISE_FRAME_SIZE (1000000 : ℚ))) [7] 1 48000
        1 1 0 false).samples).getD (0 * (1 : ℤ).toNat) 0 ∧
      ((process_audio_with_rnnoise (some ())
        (fun (st : Unit) (f : List ℚ) =>
          (st, List.replicate RNNOISE_FRAME_SIZE (1000000 : ℚ))) [7] 1 48000
        1 1 0 false).samples).getD (0 * (1 : ℤ).toNat) 0 ≤ 32767) :=
  ⟨⟨by decide, by decide, by decide, by decide⟩,
    process_output_in_range ()
      (fun (st : Unit) (f : List ℚ) =>
        (st, List.replicate RNNOISE_FRAME_SIZE (1000000 : ℚ))) [7] 1 48000 1
      1 0 false 0 (by decide) (by decide) (by decide) (by decide)⟩

end NativeLib
